import Mathlib

/-!
Verification of the retry policy engine (amidgo/repeater).

The development shallowly embeds the two variants of the engine that the
claims refer to:

* `RetryM` — the middleware-based variant (`Result` with a two-valued
  `code`, a `backoff` override, `WithBackoff` / `WithMaxRetryCount`
  middlewares carrying private counters, and the context-aware `Retry`
  loop).  Go closures with a private `uint64` counter are embedded by
  threading the counter explicitly through the pure middleware bodies
  (`backoffMiddleware`, `retryCountExceededMiddleware`), exactly as the
  source factors them.  The user operation is embedded as a script
  `Nat → Result` giving the result of its k-th invocation, and the loop is
  fuel-indexed so that non-termination is observable as `none` for every
  fuel.  Context cancellation is an oracle `sel : Nat → Bool` deciding,
  for each select executed during a sleep, whether the Done branch wins.

* `RetryP` — the `Policy` variant (`Policy.Retry` with a
  `DurationProgression` and a fixed `retryCount` budget; the exhaustion
  result joins the last recoverable error).  The loop additionally
  returns the number of invocations performed and the list of positive
  sleep durations actually waited, so that timing claims are statable.

Go `error` values are embedded as `Option Err` where `Err` is closed
under `errors.Join` of two non-nil errors; `errIs` mirrors `errors.Is`
decomposition.  `time.Duration` is int64: durations are `Int`, and the
strategy arithmetic that can overflow (`Fibonacci`) is computed with
explicit wrapping modulo 2^64 (`U64`, `toInt64`, `wrapInt64`), matching
Go's `uint64` iteration and `int64` multiplication.
-/

/-- Go errors: `none` is nil; `Err.base` are distinct leaf errors
(`Err.base 0` is the package sentinel `ErrRetryCountExceeded`);
`Err.joined a b` is `errors.Join(a, b)` of two non-nil errors. -/
inductive Err where
| base : Nat → Err
| joined : Err → Err → Err
deriving DecidableEq

/-- The sentinel `ErrRetryCountExceeded = errors.New("retry count exceeded")`. -/
def ErrRetryCountExceeded : Err := Err.base 0

/-- `errors.Is`: an error matches the target if it equals it, or it is a
join and one of the joined errors matches. -/
def errIs : Err → Err → Bool
| Err.base n, t => decide (Err.base n = t)
| Err.joined a b, t => decide (Err.joined a b = t) || errIs a t || errIs b t

theorem errIs_self (e : Err) : errIs e e = true := by
  cases e <;> simp [errIs]

namespace RetryM

/-- `type code uint8; codeContinue, codeFinished` of the middleware variant. -/
inductive Code where
| codeContinue : Code
| codeFinished : Code
deriving DecidableEq

/-- The middleware variant's `Result`: code, backoff override (int64
nanoseconds), error. -/
structure Result where
  code : Code
  backoff : Int
  err : Option Err
deriving DecidableEq

/-- `func Continue() Result { return Result{} }` — the zero value. -/
def Continue : Result := ⟨Code.codeContinue, 0, none⟩

/-- `func Recover(recoverErr error) Result`. -/
def Recover (recoverErr : Option Err) : Result := ⟨Code.codeContinue, 0, recoverErr⟩

/-- `func RecoverAfter(recoverErr error, backoff time.Duration) Result`. -/
def RecoverAfter (recoverErr : Option Err) (backoff : Int) : Result :=
  ⟨Code.codeContinue, backoff, recoverErr⟩

/-- `func Abort(err error) Result`. -/
def Abort (err : Option Err) : Result := ⟨Code.codeFinished, 0, err⟩

/-- `func RetryAfter(backoff time.Duration) Result`. -/
def RetryAfter (backoff : Int) : Result := ⟨Code.codeContinue, backoff, none⟩

/-- `func Finish() Result`. -/
def Finish : Result := ⟨Code.codeFinished, 0, none⟩

/-- `func backoffMiddleware(attempt uint64, backoff Backoff, res Result) (uint64, Result)`:
terminal results pass through; a non-terminal result with a non-zero
backoff passes through with the counter bumped; otherwise the strategy
value at the current counter is injected and the counter bumped. -/
def backoffMiddleware (attempt : Nat) (backoff : Nat → Int) (res : Result) :
    Nat × Result :=
  if res.code ≠ Code.codeContinue then (attempt, res)
  else if res.backoff ≠ 0 then (attempt + 1, res)
  else (attempt + 1, ⟨res.code, backoff attempt, res.err⟩)

/-- `func retryCountExceededMiddleware(attempt, maxRetryCount uint64, res Result) (uint64, Result)`:
terminal results pass through; below the threshold the counter is bumped
and the result passes through; at the threshold the result becomes
`Abort(ErrRetryCountExceeded)` or `Abort(errors.Join(ErrRetryCountExceeded, res.err))`. -/
def retryCountExceededMiddleware (attempt maxRetryCount : Nat) (res : Result) :
    Nat × Result :=
  if res.code ≠ Code.codeContinue then (attempt, res)
  else if attempt < maxRetryCount then (attempt + 1, res)
  else
    match res.err with
    | none => (attempt, Abort (some ErrRetryCountExceeded))
    | some e => (attempt, Abort (some (Err.joined ErrRetryCountExceeded e)))

/-- The two middleware constructors of the source, `WithBackoff(backoff
Backoff)` and `WithMaxRetryCount(maxRetryCount uint64)`.  Each wraps the
inner `Func` in a closure holding a private `uint64` counter starting at
0 and post-processing the inner result with the corresponding pure
middleware body. -/
inductive Mdw where
| WithBackoff : (Nat → Int) → Mdw
| WithMaxRetryCount : Nat → Mdw

/-- The post-processing step of one middleware, given its private counter. -/
def applyMdw : Mdw → Nat → Result → Nat × Result
| Mdw.WithBackoff b, c, r => backoffMiddleware c b r
| Mdw.WithMaxRetryCount n, c, r => retryCountExceededMiddleware c n r

/-- One call through the built chain, after the raw operation returned `r`:
the innermost (last-declared) middleware post-processes first, the
outermost (first-declared) middleware last.  Each middleware is paired
with the current value of its private counter. -/
def postChain : List (Mdw × Nat) → Result → List (Mdw × Nat) × Result
| [], r => ([], r)
| (m, c) :: rest, r =>
    let inner := postChain rest r
    let outer := applyMdw m c inner.2
    ((m, outer.1) :: inner.1, outer.2)

/-- The mutable state captured by the built chain: the middlewares with
their private counters, and the number of invocations of the raw
operation so far. -/
structure ChainState where
  chain : List (Mdw × Nat)
  calls : Nat

/-- One invocation `rf(ctx)` of the fully wrapped operation: the raw
operation (a script `Nat → Result` indexed by invocation count) runs,
then every middleware post-processes from innermost to outermost. -/
def callChain (op : Nat → Result) (s : ChainState) : Result × ChainState :=
  let r0 := op s.calls
  let pc := postChain s.chain r0
  (pc.2, ⟨pc.1, s.calls + 1⟩)

/-- The loop of `func Retry(ctx, rf, middlewares...)` after the initial
call, with `res` the last (non-terminal) result.  `fuel` bounds the
number of iterations observed (the Go loop is unbounded); `sel k`
decides whether the `ctx.Done()` branch wins the k-th select executed
during a sleep, and `cause` is `context.Cause(ctx)` there. -/
def retryGo (op : Nat → Result) (sel : Nat → Bool) (cause : Err) :
    Nat → ChainState → Nat → Result → Option (Option Err × ChainState)
| 0, _, _, _ => none
| fuel + 1, s, k, res =>
    if res.backoff ≤ 0 then
      let c := callChain op s
      if c.1.code ≠ Code.codeContinue then some (c.1.err, c.2)
      else retryGo op sel cause fuel c.2 k c.1
    else if sel k then
      some (some (match res.err with
        | none => cause
        | some e => Err.joined cause e), s)
    else
      let c := callChain op s
      if c.1.code ≠ Code.codeContinue then some (c.1.err, c.2)
      else retryGo op sel cause fuel c.2 (k + 1) c.1

/-- `func Retry(ctx context.Context, rf Func, middlewares ...Middleware) error`:
builds the chain (fresh counters), performs the initial invocation, and
runs the loop.  Returns `none` when the loop has not terminated within
`fuel` iterations, otherwise `some (err, final state)`. -/
def Retry (op : Nat → Result) (middlewares : List Mdw) (sel : Nat → Bool)
    (cause : Err) (fuel : Nat) : Option (Option Err × ChainState) :=
  let s0 : ChainState := ⟨middlewares.map (fun m => (m, 0)), 0⟩
  let c := callChain op s0
  if c.1.code ≠ Code.codeContinue then some (c.1.err, c.2)
  else retryGo op sel cause fuel c.2 0 c.1

/-- `for _, mdw := range slices.Backward(middlewares) { rf = mdw(rf) }`:
the middleware list is folded from the last element to the first, so the
first-declared middleware is applied last and ends up outermost.  Stated
generically over any context type and any `Middleware = Func → Func`. -/
def buildChain {Ctx : Type} (middlewares : List ((Ctx → Result) → Ctx → Result))
    (rf : Ctx → Result) : Ctx → Result :=
  middlewares.reverse.foldl (fun acc mdw => mdw acc) rf

/-- `2^64`, the modulus of Go's `uint64` arithmetic. -/
def U64 : Nat := 2 ^ 64

/-- The loop `n2, n1 = n1, n1+n2` of `fibonacciIterative`, run `k` times
on the pair `(n2, n1)`, with the `uint64` addition wrapping. -/
def fibAux : Nat → Nat × Nat → Nat × Nat
| 0, p => p
| k + 1, p => fibAux k (p.2, (p.1 + p.2) % U64)

/-- `func fibonacciIterative(n uint64) uint64`. -/
def fibonacciIterative (n : Nat) : Nat :=
  if n ≤ 1 then n else (fibAux (n - 1) (0, 1)).2

/-- Reinterpretation of a `uint64` value (< 2^64) as an `int64`
(`time.Duration(u)`). -/
def toInt64 (u : Nat) : Int :=
  if u < 2 ^ 63 then (u : Int) else (u : Int) - 2 ^ 64

/-- Wrapping of an integer into `int64`, as Go multiplication of two
`int64` values produces. -/
def wrapInt64 (x : Int) : Int := (x + 2 ^ 63) % 2 ^ 64 - 2 ^ 63

/-- `func Fibonacci(base time.Duration) Backoff`:
`base * time.Duration(fibonacciIterative(attempt+1))`, with the `uint64`
increment, the `uint64 → int64` conversion and the `int64` product all
wrapping as in Go.  `FibonacciProgression.Duration` of the `Policy`
variant is the same computation. -/
def Fibonacci (base : Int) : Nat → Int := fun attempt =>
  wrapInt64 (base * toInt64 (fibonacciIterative ((attempt + 1) % U64)))

end RetryM

namespace RetryP

/-- `type code uint8; codeContinue, codeFinished` of the `Policy` variant. -/
inductive Code where
| codeContinue : Code
| codeFinished : Code
deriving DecidableEq

/-- The `Policy` variant's `Result`: code, `retryAfter` override, error. -/
structure Result where
  code : Code
  retryAfter : Int
  err : Option Err
deriving DecidableEq

/-- `func Continue() Result { return Result{} }`. -/
def Continue : Result := ⟨Code.codeContinue, 0, none⟩

/-- `func Recover(recoverErr error) Result`. -/
def Recover (recoverErr : Option Err) : Result := ⟨Code.codeContinue, 0, recoverErr⟩

/-- `func Abort(err error) Result`. -/
def Abort (err : Option Err) : Result := ⟨Code.codeFinished, 0, err⟩

/-- `func RetryAfter(sleepDuration time.Duration) Result`. -/
def RetryAfter (sleepDuration : Int) : Result := ⟨Code.codeContinue, sleepDuration, none⟩

/-- `func Finish() Result`. -/
def Finish : Result := ⟨Code.codeFinished, 0, none⟩

/-- `func retryCountExceeded(lastResultErr error) Result`: the exhaustion
result, joining the last recoverable error into the sentinel when present. -/
def retryCountExceeded (lastResultErr : Option Err) : Result :=
  match lastResultErr with
  | none => ⟨Code.codeFinished, 0, some ErrRetryCountExceeded⟩
  | some e => ⟨Code.codeFinished, 0, some (Err.joined ErrRetryCountExceeded e)⟩

/-- `type Policy struct { progression DurationProgression; retryCount uint64 }`,
with the `DurationProgression` interface embedded as its `Duration`
function. -/
structure Policy where
  progression : Nat → Int
  retryCount : Nat

/-- The `for attempt := range r.retryCount` loop of `Policy.Retry`, with
`res` the last (non-terminal) result, `calls` the number of invocations
of the operation so far, and the operation a script `Nat → Result`
indexed by invocation count.  Returns the final `Result`, the total
invocation count, and the list of positive sleep durations waited, in
order. -/
def policyLoop (progression : Nat → Int) (op : Nat → Result) :
    Nat → Nat → Result → Nat → Result × Nat × List Int
| _, 0, res, calls => (retryCountExceeded res.err, calls, [])
| attempt, rem + 1, res, calls =>
    let sleepTime := if res.retryAfter ≠ 0 then res.retryAfter else progression attempt
    let sleeps : List Int := if sleepTime ≤ 0 then [] else [sleepTime]
    let res2 := op calls
    if res2.code ≠ Code.codeContinue then (res2, calls + 1, sleeps)
    else
      let out := policyLoop progression op (attempt + 1) rem res2 (calls + 1)
      (out.1, out.2.1, sleeps ++ out.2.2)

/-- `func (r Policy) Retry(rf Func) (result Result)`: initial invocation,
then the budgeted loop; on exhaustion `retryCountExceeded(result.err)`. -/
def Policy.Retry (p : Policy) (op : Nat → Result) : Result × Nat × List Int :=
  let res := op 0
  if res.code ≠ Code.codeContinue then (res, 1, [])
  else policyLoop p.progression op 0 p.retryCount res 1

/-- The effective sleep duration of one loop iteration: the previous
result's `retryAfter` override when non-zero, otherwise the progression
evaluated at the current attempt index. -/
def effectiveSleep (progression : Nat → Int) (attempt : Nat) (res : Result) : Int :=
  if res.retryAfter ≠ 0 then res.retryAfter else progression attempt

end RetryP

theorem errIs_joined_left (a b t : Err) (h : errIs a t = true) :
    errIs (Err.joined a b) t = true := by
  simp [errIs, h]

theorem errIs_joined_right (a b t : Err) (h : errIs b t = true) :
    errIs (Err.joined a b) t = true := by
  simp [errIs, h]

/-- Claim C10: a zero duration in the override-carrying constructors yields
the same `Result` as the override-free constructor — `RetryAfter 0` equals
`Continue` and `RecoverAfter e 0` equals `Recover e` — and feeding such a
result to the backoff middleware injects the strategy's computed value,
so a zero override defers to the strategy. -/
theorem spec_c10_zeroOverride :
    RetryM.RetryAfter 0 = RetryM.Continue ∧
    (∀ e : Option Err, RetryM.RecoverAfter e 0 = RetryM.Recover e) ∧
    (∀ (a : Nat) (b : Nat → Int),
      RetryM.backoffMiddleware a b (RetryM.RetryAfter 0) =
        (a + 1, ⟨RetryM.Code.codeContinue, b a, none⟩)) := by
  refine ⟨rfl, fun e => rfl, fun a b => ?_⟩
  simp [RetryM.backoffMiddleware, RetryM.RetryAfter]

/-- Claim C4: the backoff middleware leaves a terminal result and its
counter unchanged; on a non-terminal result with zero override it injects
the strategy value at the current counter and bumps the counter; on a
non-terminal result with a non-zero override it passes the result through
and still bumps the counter — the counter advances exactly when the
result denotes continue. -/
theorem spec_c4_withBackoff (b : Nat → Int) (a : Nat) (res : RetryM.Result) :
    (res.code = RetryM.Code.codeFinished →
      RetryM.backoffMiddleware a b res = (a, res)) ∧
    (res.code = RetryM.Code.codeContinue → res.backoff = 0 →
      RetryM.backoffMiddleware a b res =
        (a + 1, ⟨RetryM.Code.codeContinue, b a, res.err⟩)) ∧
    (res.code = RetryM.Code.codeContinue → res.backoff ≠ 0 →
      RetryM.backoffMiddleware a b res = (a + 1, res)) ∧
    ((RetryM.backoffMiddleware a b res).1 = a + 1 ↔
      res.code = RetryM.Code.codeContinue) := by
  obtain ⟨code, bo, e⟩ := res
  cases code <;>
    by_cases hbo : bo = 0 <;>
      simp [RetryM.backoffMiddleware, hbo]

/-- Witness for C4 at a concrete input. -/
theorem spec_c4_witness :
    RetryM.backoffMiddleware 3 (fun _ => 7) (RetryM.Recover (some (Err.base 1))) =
      (4, ⟨RetryM.Code.codeContinue, 7, some (Err.base 1)⟩) :=
  (spec_c4_withBackoff (fun _ => 7) 3 (RetryM.Recover (some (Err.base 1)))).2.1 rfl rfl

/-- Claim C1: the max-retry-count middleware passes a non-terminal result
through unchanged and bumps its counter while the counter is below the
bound; once the counter has reached the bound and the result is still
non-terminal it replaces it with `Abort(ErrRetryCountExceeded)` — joined
with the inner result's error when present — so the final error
decomposes (in the sense of `errors.Is`) into the exhaustion sentinel and
the last recoverable error. -/
theorem spec_c1_maxRetryCount (n a : Nat) (res : RetryM.Result)
    (h : res.code = RetryM.Code.codeContinue) :
    (a < n → RetryM.retryCountExceededMiddleware a n res = (a + 1, res)) ∧
    (n ≤ a → ∃ fe : Err,
      RetryM.retryCountExceededMiddleware a n res = (a, RetryM.Abort (some fe)) ∧
      errIs fe ErrRetryCountExceeded = true ∧
      ∀ e, res.err = some e → errIs fe e = true) := by
  constructor
  · intro hlt
    simp [RetryM.retryCountExceededMiddleware, h, hlt]
  · intro hge
    cases hres : res.err with
    | none =>
        refine ⟨ErrRetryCountExceeded, ?_, errIs_self _, ?_⟩
        · simp [RetryM.retryCountExceededMiddleware, h, Nat.not_lt.mpr hge, hres]
        · intro e he
          exact absurd he (by simp)
    | some e0 =>
        refine ⟨Err.joined ErrRetryCountExceeded e0, ?_, ?_, ?_⟩
        · simp [RetryM.retryCountExceededMiddleware, h, Nat.not_lt.mpr hge, hres]
        · exact errIs_joined_left _ _ _ (errIs_self _)
        · intro e he
          obtain rfl : e0 = e := by injection he
          exact errIs_joined_right _ _ _ (errIs_self _)

/-- Witness for C1 at concrete inputs: below the bound (pass-through)
and at the bound (abort joining the recoverable error). -/
theorem spec_c1_witness :
    RetryM.retryCountExceededMiddleware 0 2 (RetryM.Recover (some (Err.base 1))) =
      (1, RetryM.Recover (some (Err.base 1))) ∧
    ∃ fe : Err,
      RetryM.retryCountExceededMiddleware 2 2 (RetryM.Recover (some (Err.base 1))) =
        (2, RetryM.Abort (some fe)) ∧
      errIs fe ErrRetryCountExceeded = true ∧
      ∀ e, (RetryM.Recover (some (Err.base 1))).err = some e → errIs fe e = true :=
  ⟨(spec_c1_maxRetryCount 2 0 (RetryM.Recover (some (Err.base 1))) rfl).1 (by decide),
   (spec_c1_maxRetryCount 2 2 (RetryM.Recover (some (Err.base 1))) rfl).2 (by decide)⟩

/-- Claim C3: the chain is built by applying the middlewares in reverse
declaration order, so the first-declared middleware is the outermost
wrapper (`buildChain (m :: ms) rf = m (buildChain ms rf)`); consequently,
for post-processing middlewares the first-declared one is the last to
observe and modify each attempt's `Result`, and in the stateful chain
model the head middleware post-processes the output of the rest of the
chain. -/
theorem spec_c3_middlewareOrder :
    (∀ (Ctx : Type) (m : (Ctx → RetryM.Result) → Ctx → RetryM.Result)
       (ms : List ((Ctx → RetryM.Result) → Ctx → RetryM.Result))
       (rf : Ctx → RetryM.Result),
      RetryM.buildChain (m :: ms) rf = m (RetryM.buildChain ms rf)) ∧
    (∀ (Ctx : Type) (ps : List (RetryM.Result → RetryM.Result))
       (rf : Ctx → RetryM.Result) (c : Ctx),
      RetryM.buildChain (ps.map (fun p f x => p (f x))) rf c =
        ps.foldr (fun p r => p r) (rf c)) ∧
    (∀ (m : RetryM.Mdw) (c : Nat) (rest : List (RetryM.Mdw × Nat))
       (r : RetryM.Result),
      (RetryM.postChain ((m, c) :: rest) r).2 =
        (RetryM.applyMdw m c (RetryM.postChain rest r).2).2) := by
  refine ⟨?_, ?_, fun m c rest r => rfl⟩
  · intro Ctx m ms rf
    simp [RetryM.buildChain, List.foldl_append]
  · intro Ctx ps rf c
    induction ps with
    | nil => rfl
    | cons p ps ih =>
        simp only [List.map_cons, List.foldr_cons, ← ih]
        simp [RetryM.buildChain, List.foldl_append]

/-- `abortErr := context.Cause(ctx); if res.err != nil { abortErr =
errors.Join(abortErr, res.err) }` — the error returned when cancellation
wins the select during a sleep. -/
def cancelErr (cause : Err) (lastErr : Option Err) : Err :=
  match lastErr with
  | none => cause
  | some e => Err.joined cause e

/-- Claim C2: when the cancellation context becomes done while the
executor sleeps between attempts (the `ctx.Done()` branch wins the
select), the loop returns at once with the chain state untouched — so no
further invocation of the operation happens — and the final error is the
context's cancellation cause, joined with the last recoverable error
when the most recent non-terminal result carried one; the final error
`errors.Is`-decomposes into the cause and that error. -/
theorem spec_c2_cancelDuringSleep (op : Nat → RetryM.Result) (sel : Nat → Bool)
    (cause : Err) (fuel : Nat) (s : RetryM.ChainState) (k : Nat)
    (res : RetryM.Result) (hcode : res.code = RetryM.Code.codeContinue)
    (hpos : 0 < res.backoff) (hsel : sel k = true) :
    RetryM.retryGo op sel cause (fuel + 1) s k res =
      some (some (cancelErr cause res.err), s) ∧
    errIs (cancelErr cause res.err) cause = true ∧
    (∀ e, res.err = some e → errIs (cancelErr cause res.err) e = true) := by
  have hnb : ¬res.backoff ≤ 0 := Int.not_le.mpr hpos
  refine ⟨?_, ?_, ?_⟩
  · cases hres : res.err with
    | none => simp [RetryM.retryGo, hnb, hsel, cancelErr, hres]
    | some e0 => simp [RetryM.retryGo, hnb, hsel, cancelErr, hres]
  · cases hres : res.err with
    | none => simp [cancelErr, errIs_self]
    | some e0 => exact errIs_joined_left _ _ _ (errIs_self _)
  · intro e he
    rw [he]
    exact errIs_joined_right _ _ _ (errIs_self _)

/-- Witness for C2: a recoverable result with a 5ns override, cancellation
winning the first select. -/
theorem spec_c2_witness :
    RetryM.retryGo (fun _ => RetryM.Continue) (fun _ => true) (Err.base 2) 1
        ⟨[], 0⟩ 0 (RetryM.RecoverAfter (some (Err.base 1)) 5) =
      some (some (cancelErr (Err.base 2) (some (Err.base 1))), ⟨[], 0⟩) ∧
    errIs (cancelErr (Err.base 2) (some (Err.base 1))) (Err.base 2) = true ∧
    (∀ e, (RetryM.RecoverAfter (some (Err.base 1)) 5).err = some e →
      errIs (cancelErr (Err.base 2) (some (Err.base 1))) e = true) :=
  spec_c2_cancelDuringSleep (fun _ => RetryM.Continue) (fun _ => true) (Err.base 2)
    0 ⟨[], 0⟩ 0 (RetryM.RecoverAfter (some (Err.base 1)) 5) rfl (by decide) rfl

/-- Claim C5: whenever an attempt returns a terminal result the executor
stops at once and returns that result verbatim — `nil` for `Finish`, the
caller's error for `Abort`, with no join of previously recorded
recoverable errors — regardless of remaining budget.  Stated for the
`Policy` loop (mid-loop and initial attempt) and for the middleware-based
loop. -/
theorem spec_c5_terminalStops :
    (∀ (progression : Nat → Int) (op : Nat → RetryP.Result) (a rem : Nat)
       (res : RetryP.Result) (calls : Nat),
      (op calls).code ≠ RetryP.Code.codeContinue →
      (RetryP.policyLoop progression op a (rem + 1) res calls).1 = op calls ∧
      (RetryP.policyLoop progression op a (rem + 1) res calls).2.1 = calls + 1) ∧
    (∀ (p : RetryP.Policy) (op : Nat → RetryP.Result),
      (op 0).code ≠ RetryP.Code.codeContinue →
      RetryP.Policy.Retry p op = (op 0, 1, [])) ∧
    (∀ (op : Nat → RetryM.Result) (sel : Nat → Bool) (cause : Err) (fuel : Nat)
       (s : RetryM.ChainState) (k : Nat) (res : RetryM.Result),
      (RetryM.callChain op s).1.code ≠ RetryM.Code.codeContinue →
      (res.backoff ≤ 0 ∨ sel k = false) →
      RetryM.retryGo op sel cause (fuel + 1) s k res =
        some ((RetryM.callChain op s).1.err, (RetryM.callChain op s).2)) := by
  refine ⟨?_, ?_, ?_⟩
  · intro progression op a rem res calls h
    simp [RetryP.policyLoop, h]
  · intro p op h
    simp [RetryP.Policy.Retry, h]
  · intro op sel cause fuel s k res h hor
    by_cases hb : res.backoff ≤ 0
    · simp [RetryM.retryGo, hb, h]
    · rcases hor with hb2 | hs
      · exact absurd hb2 hb
      · simp [RetryM.retryGo, hb, hs, h]

/-- Witness for C5: a scripted `Abort` is returned verbatim both by the
`Policy` loop and by the middleware-based loop. -/
theorem spec_c5_witness :
    ((RetryP.policyLoop (fun _ => 1) (fun _ => RetryP.Abort (some (Err.base 3)))
        0 (0 + 1) RetryP.Continue 0).1 = RetryP.Abort (some (Err.base 3)) ∧
      (RetryP.policyLoop (fun _ => 1) (fun _ => RetryP.Abort (some (Err.base 3)))
        0 (0 + 1) RetryP.Continue 0).2.1 = 0 + 1) ∧
    RetryM.retryGo (fun _ => RetryM.Abort (some (Err.base 3))) (fun _ => false)
        (Err.base 2) (4 + 1) ⟨[], 0⟩ 0 RetryM.Continue =
      some ((RetryM.callChain (fun _ => RetryM.Abort (some (Err.base 3))) ⟨[], 0⟩).1.err,
        (RetryM.callChain (fun _ => RetryM.Abort (some (Err.base 3))) ⟨[], 0⟩).2) :=
  ⟨(spec_c5_terminalStops.1 (fun _ => 1) (fun _ => RetryP.Abort (some (Err.base 3)))
      0 0 RetryP.Continue 0 (by decide)),
   (spec_c5_terminalStops.2.2 (fun _ => RetryM.Abort (some (Err.base 3)))
      (fun _ => false) (Err.base 2) 4 ⟨[], 0⟩ 0 RetryM.Continue (by decide)
      (Or.inl (by decide)))⟩

theorem policyLoop_calls_le (progression : Nat → Int) (op : Nat → RetryP.Result) :
    ∀ (rem a : Nat) (res : RetryP.Result) (calls : Nat),
      calls ≤ (RetryP.policyLoop progression op a rem res calls).2.1 := by
  intro rem
  induction rem with
  | zero => intro a res calls; simp [RetryP.policyLoop]
  | succ rem ih =>
      intro a res calls
      by_cases h : (op calls).code ≠ RetryP.Code.codeContinue
      · simp [RetryP.policyLoop, h]
      · simp only [RetryP.policyLoop, h, if_neg, ite_false, not_not] at *
        have := ih (a + 1) (op calls) (calls + 1)
        simp [h] at this ⊢
        omega

/-- Claim C6: in each loop iteration over a non-terminal result, the
effective sleep duration before the next invocation is the result's
override when non-zero, otherwise the progression at the current attempt
index; a positive effective duration is waited (it heads the sleep
trace), a zero-or-negative one is not waited at all, and in both cases
the operation is invoked again. -/
theorem spec_c6_effectiveSleep (progression : Nat → Int) (op : Nat → RetryP.Result)
    (a rem : Nat) (res : RetryP.Result) (calls : Nat) :
    ∃ rest : List Int,
      (RetryP.policyLoop progression op a (rem + 1) res calls).2.2 =
        (if RetryP.effectiveSleep progression a res ≤ 0 then []
         else [RetryP.effectiveSleep progression a res]) ++ rest ∧
      calls + 1 ≤ (RetryP.policyLoop progression op a (rem + 1) res calls).2.1 := by
  by_cases h : (op calls).code ≠ RetryP.Code.codeContinue
  · refine ⟨[], ?_, ?_⟩ <;> simp [RetryP.policyLoop, RetryP.effectiveSleep, h]
  · refine ⟨(RetryP.policyLoop progression op (a + 1) rem (op calls) (calls + 1)).2.2,
      ?_, ?_⟩
    · simp [RetryP.policyLoop, RetryP.effectiveSleep, h]
    · have := policyLoop_calls_le progression op rem (a + 1) (op calls) (calls + 1)
      simp [RetryP.policyLoop, h]
      omega

/-- Claim C7: a retry budget of zero still performs exactly one invocation
of the operation; if that single invocation is non-terminal the call
reports exhaustion carrying the sentinel `ErrRetryCountExceeded`.  Stated
for `Policy.Retry` with `retryCount = 0` and for the middleware-based
`Retry` with `WithMaxRetryCount 0`. -/
theorem spec_c7_zeroBudget :
    (∀ (p : RetryP.Policy) (op : Nat → RetryP.Result), p.retryCount = 0 →
      (RetryP.Policy.Retry p op).2.1 = 1 ∧
      ((op 0).code = RetryP.Code.codeContinue →
        (RetryP.Policy.Retry p op).1 = RetryP.retryCountExceeded (op 0).err ∧
        ∃ fe : Err, (RetryP.Policy.Retry p op).1.err = some fe ∧
          errIs fe ErrRetryCountExceeded = true)) ∧
    (∀ (op : Nat → RetryM.Result) (sel : Nat → Bool) (cause : Err) (fuel : Nat),
      ∃ eo s,
        RetryM.Retry op [RetryM.Mdw.WithMaxRetryCount 0] sel cause fuel =
          some (eo, s) ∧
        s.calls = 1 ∧
        ((op 0).code = RetryM.Code.codeContinue →
          ∃ fe : Err, eo = some fe ∧ errIs fe ErrRetryCountExceeded = true)) := by
  constructor
  · intro p op hrc
    by_cases h : (op 0).code = RetryP.Code.codeContinue
    · constructor
      · simp [RetryP.Policy.Retry, hrc, h, RetryP.policyLoop]
      · intro _
        constructor
        · simp [RetryP.Policy.Retry, hrc, h, RetryP.policyLoop]
        · cases hres : (op 0).err with
          | none =>
              exact ⟨ErrRetryCountExceeded,
                by simp [RetryP.Policy.Retry, hrc, h, RetryP.policyLoop,
                  RetryP.retryCountExceeded, hres], errIs_self _⟩
          | some e0 =>
              exact ⟨Err.joined ErrRetryCountExceeded e0,
                by simp [RetryP.Policy.Retry, hrc, h, RetryP.policyLoop,
                  RetryP.retryCountExceeded, hres],
                errIs_joined_left _ _ _ (errIs_self _)⟩
    · refine ⟨by simp [RetryP.Policy.Retry, h], fun hc => absurd hc h⟩
  · intro op sel cause fuel
    by_cases h : (op 0).code = RetryM.Code.codeContinue
    · cases hres : (op 0).err with
      | none =>
          refine ⟨some ErrRetryCountExceeded, ⟨[(RetryM.Mdw.WithMaxRetryCount 0, 0)], 1⟩,
            ?_, rfl, fun _ => ⟨ErrRetryCountExceeded, rfl, errIs_self _⟩⟩
          simp [RetryM.Retry, RetryM.callChain, RetryM.postChain, RetryM.applyMdw,
            RetryM.retryCountExceededMiddleware, h, hres, RetryM.Abort]
      | some e0 =>
          refine ⟨some (Err.joined ErrRetryCountExceeded e0),
            ⟨[(RetryM.Mdw.WithMaxRetryCount 0, 0)], 1⟩,
            ?_, rfl, fun _ => ⟨Err.joined ErrRetryCountExceeded e0, rfl,
              errIs_joined_left _ _ _ (errIs_self _)⟩⟩
          simp [RetryM.Retry, RetryM.callChain, RetryM.postChain, RetryM.applyMdw,
            RetryM.retryCountExceededMiddleware, h, hres, RetryM.Abort]
    · refine ⟨(op 0).err, ⟨[(RetryM.Mdw.WithMaxRetryCount 0, 0)], 1⟩,
        ?_, rfl, fun hc => absurd hc h⟩
      simp [RetryM.Retry, RetryM.callChain, RetryM.postChain, RetryM.applyMdw,
        RetryM.retryCountExceededMiddleware, h]

/-- Witness for C7: a scripted always-`Continue` operation under a zero
budget in both variants. -/
theorem spec_c7_witness :
    ((RetryP.Policy.Retry ⟨fun _ => 1, 0⟩ (fun _ => RetryP.Continue)).2.1 = 1 ∧
      ((RetryP.Policy.Retry ⟨fun _ => 1, 0⟩ (fun _ => RetryP.Continue)).1 =
          RetryP.retryCountExceeded ((fun _ => RetryP.Continue : Nat → RetryP.Result) 0).err ∧
        ∃ fe : Err,
          (RetryP.Policy.Retry ⟨fun _ => 1, 0⟩ (fun _ => RetryP.Continue)).1.err = some fe ∧
          errIs fe ErrRetryCountExceeded = true)) ∧
    ∃ eo s,
      RetryM.Retry (fun _ => RetryM.Continue) [RetryM.Mdw.WithMaxRetryCount 0]
          (fun _ => false) (Err.base 2) 3 = some (eo, s) ∧
      s.calls = 1 ∧
      (((fun _ => RetryM.Continue : Nat → RetryM.Result) 0).code =
          RetryM.Code.codeContinue →
        ∃ fe : Err, eo = some fe ∧ errIs fe ErrRetryCountExceeded = true) :=
  ⟨⟨(spec_c7_zeroBudget.1 ⟨fun _ => 1, 0⟩ (fun _ => RetryP.Continue) rfl).1,
    (spec_c7_zeroBudget.1 ⟨fun _ => 1, 0⟩ (fun _ => RetryP.Continue) rfl).2 rfl⟩,
   spec_c7_zeroBudget.2 (fun _ => RetryM.Continue) (fun _ => false) (Err.base 2) 3⟩

theorem wrapInt64_eq_self (x : Int) (h1 : -(2 ^ 63) ≤ x) (h2 : x < 2 ^ 63) :
    RetryM.wrapInt64 x = x := by
  unfold RetryM.wrapInt64
  have e63 : (2 : Int) ^ 63 = 9223372036854775808 := by norm_num
  have e64 : (2 : Int) ^ 64 = 18446744073709551616 := by norm_num
  rw [e63, e64] at *
  rw [Int.emod_eq_of_lt (by omega) (by omega)]
  omega

theorem fibAux_fib (k : Nat) : ∀ m : Nat, Nat.fib (m + k + 1) < RetryM.U64 →
    RetryM.fibAux k (Nat.fib m, Nat.fib (m + 1)) =
      (Nat.fib (m + k), Nat.fib (m + k + 1)) := by
  induction k with
  | zero => intro m _; simp [RetryM.fibAux]
  | succ k ih =>
      intro m h
      have hle : m + 2 ≤ m + (k + 1) + 1 := by omega
      have hlt : Nat.fib (m + 2) < RetryM.U64 :=
        lt_of_le_of_lt (Nat.fib_mono hle) h
      have hmod : (Nat.fib m + Nat.fib (m + 1)) % RetryM.U64 = Nat.fib (m + 2) := by
        rw [← Nat.fib_add_two]
        exact Nat.mod_eq_of_lt hlt
      have step : RetryM.fibAux (k + 1) (Nat.fib m, Nat.fib (m + 1)) =
          RetryM.fibAux k (Nat.fib (m + 1), Nat.fib (m + 1 + 1)) := by
        simp [RetryM.fibAux, hmod]
      have hih : Nat.fib (m + 1 + k + 1) < RetryM.U64 := by
        have e : m + 1 + k + 1 = m + (k + 1) + 1 := by omega
        rw [e]; exact h
      rw [step, ih (m + 1) hih]
      have e1 : m + 1 + k = m + (k + 1) := by omega
      rw [e1]

theorem fibIter_eq_fib (n : Nat) (h : Nat.fib n < RetryM.U64) :
    RetryM.fibonacciIterative n = Nat.fib n := by
  match n with
  | 0 => simp [RetryM.fibonacciIterative]
  | 1 => simp [RetryM.fibonacciIterative]
  | n + 2 =>
      unfold RetryM.fibonacciIterative
      rw [if_neg (by omega)]
      have e : n + 2 - 1 = n + 1 := by omega
      have h01 : ((0 : Nat), (1 : Nat)) = (Nat.fib 0, Nat.fib 1) := by simp
      have hh : Nat.fib (0 + (n + 1) + 1) < RetryM.U64 := by simpa using h
      rw [e, h01, fibAux_fib (n + 1) 0 hh]
      simp

theorem Fibonacci_eq (b : Int) (a : Nat) (ha : a ≤ 91)
    (h1 : -(2 ^ 63) ≤ b * (Nat.fib (a + 1) : Int))
    (h2 : b * (Nat.fib (a + 1) : Int) < 2 ^ 63) :
    RetryM.Fibonacci b a = b * (Nat.fib (a + 1) : Int) := by
  have hfib63 : Nat.fib (a + 1) < 2 ^ 63 :=
    lt_of_le_of_lt (Nat.fib_mono (by omega : a + 1 ≤ 92)) (by decide)
  have hmod : (a + 1) % RetryM.U64 = a + 1 := by
    unfold RetryM.U64
    exact Nat.mod_eq_of_lt (by omega)
  have hfib64 : Nat.fib (a + 1) < RetryM.U64 := by
    unfold RetryM.U64
    omega
  unfold RetryM.Fibonacci
  rw [hmod, fibIter_eq_fib _ hfib64]
  unfold RetryM.toInt64
  rw [if_pos hfib63]
  exact wrapInt64_eq_self _ h1 h2

theorem Fibonacci_small (b : Int) (hb : 0 ≤ b) (h55 : b * 55 < 2 ^ 63)
    (i c : Nat) (hi : i ≤ 9) (hc : Nat.fib (i + 1) = c) (hc55 : c ≤ 55) :
    RetryM.Fibonacci b i = (c : Int) * b := by
  have hcast : ((Nat.fib (i + 1) : Nat) : Int) ≤ 55 := by
    rw [hc]; exact_mod_cast hc55
  have hnn : (0 : Int) ≤ (Nat.fib (i + 1) : Int) := Int.natCast_nonneg _
  have h1 : -(2 ^ 63) ≤ b * (Nat.fib (i + 1) : Int) :=
    le_trans (by norm_num) (mul_nonneg hb hnn)
  have h2 : b * (Nat.fib (i + 1) : Int) < 2 ^ 63 :=
    lt_of_le_of_lt (mul_le_mul_of_nonneg_left hcast hb) h55
  rw [Fibonacci_eq b i (by omega) h1 h2, hc, mul_comm]

/-- Counterexample to claim C8 as stated: with base `2^62` ns (a valid
`time.Duration`) at attempt index 2, the code's 64-bit product wraps and
returns `-(2^63)` rather than `base * fib(3) = 2 * base = 2^63`. -/
theorem spec_c8_counterexample :
    RetryM.Fibonacci (2 ^ 62) 2 ≠ (2 ^ 62 : Int) * (Nat.fib 3 : Int) ∧
    RetryM.Fibonacci (2 ^ 62) 2 ≠ 2 * (2 ^ 62 : Int) ∧
    RetryM.Fibonacci (2 ^ 62) 2 = -(2 ^ 63) := by
  refine ⟨by decide, by decide, by decide⟩

/-- Claim C8, amended: the Fibonacci strategy computes
`base * fib(attempt+1)` (with `fib 0 = 0`, `fib 1 = 1`, iteratively) in
64-bit machine arithmetic; whenever `attempt ≤ 91` and the mathematical
product fits in int64 this equals the mathematical `base * fib(attempt+1)`,
and in particular for attempts 0 through 9 and any non-negative base with
`55 * base` within int64 it yields exactly 1,1,2,3,5,8,13,21,34,55 times
the base. -/
theorem spec_c8_fibonacci (b : Int) :
    (∀ a : Nat, a ≤ 91 → -(2 ^ 63) ≤ b * (Nat.fib (a + 1) : Int) →
      b * (Nat.fib (a + 1) : Int) < 2 ^ 63 →
      RetryM.Fibonacci b a = b * (Nat.fib (a + 1) : Int)) ∧
    (0 ≤ b → b * 55 < 2 ^ 63 →
      RetryM.Fibonacci b 0 = 1 * b ∧ RetryM.Fibonacci b 1 = 1 * b ∧
      RetryM.Fibonacci b 2 = 2 * b ∧ RetryM.Fibonacci b 3 = 3 * b ∧
      RetryM.Fibonacci b 4 = 5 * b ∧ RetryM.Fibonacci b 5 = 8 * b ∧
      RetryM.Fibonacci b 6 = 13 * b ∧ RetryM.Fibonacci b 7 = 21 * b ∧
      RetryM.Fibonacci b 8 = 34 * b ∧ RetryM.Fibonacci b 9 = 55 * b) := by
  refine ⟨fun a ha h1 h2 => Fibonacci_eq b a ha h1 h2, fun hb h55 => ?_⟩
  have w1 := Fibonacci_small b hb h55 0 1 (by omega) (by decide) (by omega)
  have w2 := Fibonacci_small b hb h55 1 1 (by omega) (by decide) (by omega)
  have w3 := Fibonacci_small b hb h55 2 2 (by omega) (by decide) (by omega)
  have w4 := Fibonacci_small b hb h55 3 3 (by omega) (by decide) (by omega)
  have w5 := Fibonacci_small b hb h55 4 5 (by omega) (by decide) (by omega)
  have w6 := Fibonacci_small b hb h55 5 8 (by omega) (by decide) (by omega)
  have w7 := Fibonacci_small b hb h55 6 13 (by omega) (by decide) (by omega)
  have w8 := Fibonacci_small b hb h55 7 21 (by omega) (by decide) (by omega)
  have w9 := Fibonacci_small b hb h55 8 34 (by omega) (by decide) (by omega)
  have w10 := Fibonacci_small b hb h55 9 55 (by omega) (by decide) (by omega)
  norm_num at w1 w2 w3 w4 w5 w6 w7 w8 w9 w10 ⊢
  exact ⟨w1, w2, w3, w4, w5, w6, w7, w8, w9, w10⟩

/-- Witness for the amended C8 at base 1s = 1000000000 ns. -/
theorem spec_c8_witness :
    RetryM.Fibonacci 1000000000 4 = 1000000000 * (Nat.fib 5 : Int) ∧
    RetryM.Fibonacci 1000000000 9 = 55 * 1000000000 :=
  ⟨(spec_c8_fibonacci 1000000000).1 4 (by omega) (by decide) (by decide),
   ((spec_c8_fibonacci 1000000000).2 (by decide) (by decide)).2.2.2.2.2.2.2.2.2⟩

theorem applyMdw_finished (m : RetryM.Mdw) (c : Nat) (r : RetryM.Result)
    (h : r.code = RetryM.Code.codeFinished) : RetryM.applyMdw m c r = (c, r) := by
  cases m with
  | WithBackoff b => simp [RetryM.applyMdw, RetryM.backoffMiddleware, h]
  | WithMaxRetryCount n =>
      simp [RetryM.applyMdw, RetryM.retryCountExceededMiddleware, h]

theorem backoffMiddleware_continue (c : Nat) (b : Nat → Int) (r : RetryM.Result)
    (h : r.code = RetryM.Code.codeContinue) :
    (RetryM.backoffMiddleware c b r).1 = c + 1 ∧
    (RetryM.backoffMiddleware c b r).2.code = RetryM.Code.codeContinue := by
  by_cases hbo : r.backoff = 0 <;> simp [RetryM.backoffMiddleware, h, hbo]

theorem postChain_continue (l : List (RetryM.Mdw × Nat)) (r : RetryM.Result)
    (h : (RetryM.postChain l r).2.code = RetryM.Code.codeContinue) :
    (RetryM.postChain l r).1 = l.map (fun p => (p.1, p.2 + 1)) ∧
    ∀ n c, (RetryM.Mdw.WithMaxRetryCount n, c) ∈ l → c < n := by
  induction l with
  | nil => exact ⟨rfl, by simp⟩
  | cons p rest ih =>
      obtain ⟨m, c⟩ := p
      simp only [RetryM.postChain] at h ⊢
      cases hC : (RetryM.postChain rest r).2.code with
      | codeFinished =>
          rw [applyMdw_finished m c _ hC] at h
          rw [hC] at h
          simp at h
      | codeContinue =>
          obtain ⟨hmap, hmem⟩ := ih hC
          cases m with
          | WithBackoff b =>
              have houter := backoffMiddleware_continue c b _ hC
              refine ⟨?_, ?_⟩
              · simp only [RetryM.applyMdw, List.map_cons]
                rw [houter.1, hmap]
              · intro n c0 hm0
                rcases List.mem_cons.mp hm0 with heq | htail
                · simp at heq
                · exact hmem n c0 htail
          | WithMaxRetryCount nn =>
              by_cases hlt : c < nn
              · have houter :
                    RetryM.retryCountExceededMiddleware c nn
                      (RetryM.postChain rest r).2 = (c + 1, (RetryM.postChain rest r).2) := by
                  simp [RetryM.retryCountExceededMiddleware, hC, hlt]
                refine ⟨?_, ?_⟩
                · simp only [RetryM.applyMdw, List.map_cons]
                  rw [houter, hmap]
                · intro n c0 hm0
                  rcases List.mem_cons.mp hm0 with heq | htail
                  · obtain ⟨h1, h2⟩ := Prod.mk.injEq .. ▸ heq
                    cases h1
                    cases h2
                    exact hlt
                  · exact hmem n c0 htail
              · exfalso
                have hfin :
                    (RetryM.retryCountExceededMiddleware c nn
                      (RetryM.postChain rest r).2).2.code = RetryM.Code.codeFinished := by
                  cases herr : (RetryM.postChain rest r).2.err <;>
                    simp [RetryM.retryCountExceededMiddleware, hC, hlt, herr, RetryM.Abort]
                simp only [RetryM.applyMdw] at h
                rw [hfin] at h
                simp at h

theorem postChain_fst (l : List (RetryM.Mdw × Nat)) (r : RetryM.Result) :
    (RetryM.postChain l r).1.map Prod.fst = l.map Prod.fst := by
  induction l with
  | nil => rfl
  | cons p rest ih =>
      obtain ⟨m, c⟩ := p
      simp only [RetryM.postChain, List.map_cons]
      rw [ih]

theorem postChain_allBackoff_code (l : List (RetryM.Mdw × Nat)) (r : RetryM.Result)
    (hall : ∀ p ∈ l, ∃ b, p.1 = RetryM.Mdw.WithBackoff b) :
    (RetryM.postChain l r).2.code = r.code := by
  induction l with
  | nil => rfl
  | cons p rest ih =>
      obtain ⟨m, c⟩ := p
      obtain ⟨b, hb⟩ := hall (m, c) (List.mem_cons_self _ _)
      have hrest : ∀ p ∈ rest, ∃ b, p.1 = RetryM.Mdw.WithBackoff b :=
        fun p hp => hall p (List.mem_cons_of_mem _ hp)
      simp only at hb
      subst hb
      have hcode : ∀ (c0 : Nat) (r0 : RetryM.Result),
          (RetryM.backoffMiddleware c0 b r0).2.code = r0.code := by
        intro c0 r0
        by_cases h1 : r0.code = RetryM.Code.codeContinue
        · by_cases h2 : r0.backoff = 0 <;> simp [RetryM.backoffMiddleware, h1, h2]
        · simp [RetryM.backoffMiddleware, h1]
      simp only [RetryM.postChain, RetryM.applyMdw]
      rw [hcode, ih hrest]

theorem allBackoff_preserved (l : List (RetryM.Mdw × Nat)) (r : RetryM.Result)
    (hall : ∀ p ∈ l, ∃ b, p.1 = RetryM.Mdw.WithBackoff b) :
    ∀ p ∈ (RetryM.postChain l r).1, ∃ b, p.1 = RetryM.Mdw.WithBackoff b := by
  intro p hp
  have hmem : p.1 ∈ (RetryM.postChain l r).1.map Prod.fst := List.mem_map_of_mem _ hp
  rw [postChain_fst] at hmem
  obtain ⟨q, hq, hq1⟩ := List.mem_map.mp hmem
  obtain ⟨b, hb⟩ := hall q hq
  exact ⟨b, by rw [← hq1, hb]⟩

theorem retryGo_calls_le (op : Nat → RetryM.Result) (sel : Nat → Bool) (cause : Err) :
    ∀ (fuel : Nat) (s : RetryM.ChainState) (k : Nat) (res : RetryM.Result)
      (eo : Option Err) (s' : RetryM.ChainState),
      RetryM.retryGo op sel cause fuel s k res = some (eo, s') →
      s'.calls ≤ s.calls + fuel := by
  intro fuel
  induction fuel with
  | zero => intro s k res eo s' h; simp [RetryM.retryGo] at h
  | succ fuel ih =>
      intro s k res eo s' h
      simp only [RetryM.retryGo] at h
      by_cases hb : res.backoff ≤ 0
      · rw [if_pos hb] at h
        by_cases hcc : (RetryM.callChain op s).1.code ≠ RetryM.Code.codeContinue
        · rw [if_pos hcc] at h
          have hs : (RetryM.callChain op s).2 = s' := congrArg Prod.snd (Option.some.inj h)
          have h2 : (RetryM.callChain op s).2.calls = s.calls + 1 := rfl
          rw [hs] at h2
          omega
        · rw [if_neg hcc] at h
          have := ih (RetryM.callChain op s).2 k (RetryM.callChain op s).1 eo s' h
          have h2 : (RetryM.callChain op s).2.calls = s.calls + 1 := rfl
          omega
      · rw [if_neg hb] at h
        by_cases hsel : sel k
        · rw [if_pos hsel] at h
          have hs : s = s' := congrArg Prod.snd (Option.some.inj h)
          rw [← hs]
          omega
        · rw [if_neg hsel] at h
          by_cases hcc : (RetryM.callChain op s).1.code ≠ RetryM.Code.codeContinue
          · rw [if_pos hcc] at h
            have hs : (RetryM.callChain op s).2 = s' := congrArg Prod.snd (Option.some.inj h)
            have h2 : (RetryM.callChain op s).2.calls = s.calls + 1 := rfl
            rw [hs] at h2
            omega
          · rw [if_neg hcc] at h
            have := ih (RetryM.callChain op s).2 (k + 1) (RetryM.callChain op s).1 eo s' h
            have h2 : (RetryM.callChain op s).2.calls = s.calls + 1 := rfl
            omega

theorem retryGo_terminates (op : Nat → RetryM.Result) (sel : Nat → Bool) (cause : Err)
    (n : Nat) :
    ∀ (fuel : Nat) (s : RetryM.ChainState) (k : Nat) (res : RetryM.Result) (c : Nat),
      (RetryM.Mdw.WithMaxRetryCount n, c) ∈ s.chain → c ≤ n → n + 1 ≤ c + fuel →
      ∃ out, RetryM.retryGo op sel cause fuel s k res = some out := by
  intro fuel
  induction fuel with
  | zero => intro s k res c _ h1 h2; exfalso; omega
  | succ fuel ih =>
      intro s k res c hmem hcn hfuel
      have hstep : ∀ k' : Nat,
          ¬(RetryM.callChain op s).1.code ≠ RetryM.Code.codeContinue →
          ∃ out, RetryM.retryGo op sel cause fuel (RetryM.callChain op s).2 k'
            (RetryM.callChain op s).1 = some out := by
        intro k' hcc
        have hcont : (RetryM.postChain s.chain (op s.calls)).2.code =
            RetryM.Code.codeContinue := not_not.mp hcc
        obtain ⟨hmap, hlt⟩ := postChain_continue s.chain (op s.calls) hcont
        have hc_lt : c < n := hlt n c hmem
        have hmem2 : (RetryM.Mdw.WithMaxRetryCount n, c + 1) ∈
            (RetryM.callChain op s).2.chain := by
          show _ ∈ (RetryM.postChain s.chain (op s.calls)).1
          rw [hmap]
          exact List.mem_map_of_mem (fun p => (p.1, p.2 + 1)) hmem
        exact ih (RetryM.callChain op s).2 k' (RetryM.callChain op s).1 (c + 1)
          hmem2 (by omega) (by omega)
      simp only [RetryM.retryGo]
      by_cases hb : res.backoff ≤ 0
      · rw [if_pos hb]
        by_cases hcc : (RetryM.callChain op s).1.code ≠ RetryM.Code.codeContinue
        · rw [if_pos hcc]; exact ⟨_, rfl⟩
        · rw [if_neg hcc]; exact hstep k hcc
      · rw [if_neg hb]
        by_cases hsel : sel k
        · rw [if_pos hsel]; exact ⟨_, rfl⟩
        · rw [if_neg hsel]
          by_cases hcc : (RetryM.callChain op s).1.code ≠ RetryM.Code.codeContinue
          · rw [if_pos hcc]; exact ⟨_, rfl⟩
          · rw [if_neg hcc]; exact hstep (k + 1) hcc

theorem retryGo_allBackoff_none (op : Nat → RetryM.Result) (cause : Err)
    (hop : ∀ j, (op j).code = RetryM.Code.codeContinue) :
    ∀ (fuel : Nat) (s : RetryM.ChainState) (k : Nat) (res : RetryM.Result),
      (∀ p ∈ s.chain, ∃ b, p.1 = RetryM.Mdw.WithBackoff b) →
      RetryM.retryGo op (fun _ => false) cause fuel s k res = none := by
  intro fuel
  induction fuel with
  | zero => intro s k res _; rfl
  | succ fuel ih =>
      intro s k res hall
      have hcode : (RetryM.callChain op s).1.code = RetryM.Code.codeContinue := by
        show (RetryM.postChain s.chain (op s.calls)).2.code = _
        rw [postChain_allBackoff_code s.chain (op s.calls) hall, hop s.calls]
      have hncc : ¬(RetryM.callChain op s).1.code ≠ RetryM.Code.codeContinue :=
        not_not.mpr hcode
      have hall2 : ∀ p ∈ (RetryM.callChain op s).2.chain,
          ∃ b, p.1 = RetryM.Mdw.WithBackoff b :=
        allBackoff_preserved s.chain (op s.calls) hall
      simp only [RetryM.retryGo]
      by_cases hb : res.backoff ≤ 0
      · rw [if_pos hb, if_neg hncc]
        exact ih _ k _ hall2
      · rw [if_neg hb, if_neg (by simp), if_neg hncc]
        exact ih _ (k + 1) _ hall2

/-- Claim C9: when the middleware list contains `WithMaxRetryCount n` the
loop terminates (fuel `n` suffices after the initial call) and the raw
operation is invoked at most `n + 1` times, for every operation and
every cancellation schedule; without such a middleware (only
`WithBackoff` middlewares, and this executor takes no budget parameter)
an operation that always returns a non-terminal result makes the loop
run forever — it returns `none` for every amount of fuel. -/
theorem spec_c9_termination :
    (∀ (op : Nat → RetryM.Result) (ms : List RetryM.Mdw) (sel : Nat → Bool)
       (cause : Err) (n : Nat), RetryM.Mdw.WithMaxRetryCount n ∈ ms →
      ∃ eo s', RetryM.Retry op ms sel cause n = some (eo, s') ∧ s'.calls ≤ n + 1) ∧
    (∀ (op : Nat → RetryM.Result) (ms : List RetryM.Mdw) (cause : Err) (fuel : Nat),
      (∀ m ∈ ms, ∃ b, m = RetryM.Mdw.WithBackoff b) →
      (∀ j, (op j).code = RetryM.Code.codeContinue) →
      RetryM.Retry op ms (fun _ => false) cause fuel = none) := by
  constructor
  · intro op ms sel cause n hmem
    have hmem0 : (RetryM.Mdw.WithMaxRetryCount n, 0) ∈
        (ms.map (fun m => (m, 0)) : List (RetryM.Mdw × Nat)) :=
      List.mem_map_of_mem (fun m => (m, 0)) hmem
    simp only [RetryM.Retry]
    by_cases hcc : (RetryM.callChain op ⟨ms.map (fun m => (m, 0)), 0⟩).1.code ≠
        RetryM.Code.codeContinue
    · rw [if_pos hcc]
      have hone : (RetryM.callChain op ⟨ms.map (fun m => (m, 0)), 0⟩).2.calls = 1 := rfl
      exact ⟨_, _, rfl, by omega⟩
    · rw [if_neg hcc]
      have hcont : (RetryM.postChain (ms.map (fun m => (m, 0))) (op 0)).2.code =
          RetryM.Code.codeContinue := not_not.mp hcc
      obtain ⟨hmap, hlt⟩ := postChain_continue (ms.map (fun m => (m, 0))) (op 0) hcont
      have hn_pos : 0 < n := hlt n 0 hmem0
      have hmem1 : (RetryM.Mdw.WithMaxRetryCount n, 1) ∈
          (RetryM.callChain op ⟨ms.map (fun m => (m, 0)), 0⟩).2.chain := by
        show _ ∈ (RetryM.postChain (ms.map (fun m => (m, 0))) (op 0)).1
        rw [hmap]
        exact List.mem_map_of_mem (fun p => (p.1, p.2 + 1)) hmem0
      obtain ⟨out, hout⟩ := retryGo_terminates op sel cause n n
        (RetryM.callChain op ⟨ms.map (fun m => (m, 0)), 0⟩).2 0
        (RetryM.callChain op ⟨ms.map (fun m => (m, 0)), 0⟩).1 1 hmem1
        (by omega) (by omega)
      obtain ⟨eo, s'⟩ := out
      have hcalls := retryGo_calls_le op sel cause n
        (RetryM.callChain op ⟨ms.map (fun m => (m, 0)), 0⟩).2 0
        (RetryM.callChain op ⟨ms.map (fun m => (m, 0)), 0⟩).1 eo s' hout
      have hone : (RetryM.callChain op ⟨ms.map (fun m => (m, 0)), 0⟩).2.calls = 1 := rfl
      exact ⟨eo, s', hout, by omega⟩
  · intro op ms cause fuel hall hop
    have hall0 : ∀ p ∈ (ms.map (fun m => (m, 0)) : List (RetryM.Mdw × Nat)),
        ∃ b, p.1 = RetryM.Mdw.WithBackoff b := by
      intro p hp
      obtain ⟨m, hm, rfl⟩ := List.mem_map.mp hp
      exact hall m hm
    have hcode : (RetryM.callChain op ⟨ms.map (fun m => (m, 0)), 0⟩).1.code =
        RetryM.Code.codeContinue := by
      show (RetryM.postChain (ms.map (fun m => (m, 0))) (op 0)).2.code = _
      rw [postChain_allBackoff_code _ _ hall0, hop 0]
    simp only [RetryM.Retry]
    rw [if_neg (not_not.mpr hcode)]
    exact retryGo_allBackoff_none op cause hop fuel _ 0 _
      (allBackoff_preserved _ _ hall0)

/-- Witness for C9: a bounded run with `WithMaxRetryCount 1` and an
unbounded run with only a `WithBackoff` middleware. -/
theorem spec_c9_witness :
    (∃ eo s', RetryM.Retry (fun _ => RetryM.Continue) [RetryM.Mdw.WithMaxRetryCount 1]
        (fun _ => false) (Err.base 2) 1 = some (eo, s') ∧ s'.calls ≤ 1 + 1) ∧
    RetryM.Retry (fun _ => RetryM.Continue) [RetryM.Mdw.WithBackoff (fun _ => 1)]
        (fun _ => false) (Err.base 2) 7 = none :=
  ⟨spec_c9_termination.1 (fun _ => RetryM.Continue) [RetryM.Mdw.WithMaxRetryCount 1]
      (fun _ => false) (Err.base 2) 1 (List.mem_singleton.mpr rfl),
   spec_c9_termination.2 (fun _ => RetryM.Continue) [RetryM.Mdw.WithBackoff (fun _ => 1)]
      (Err.base 2) 7 (fun m hm => ⟨fun _ => 1, List.mem_singleton.mp hm⟩)
      (fun _ => rfl)⟩
